import Mathlib

/-!
Verification of the wiki-link resolution core of the obsidian-next repository.

The embedding models, from `src/lib/markdown.ts`:
  - `getTitleToSlugMap` (alias index builder),
  - `remarkInternalLinks` (the tree-level link rewriter, per text node),
and from `src/app/[slug]/page.tsx` the string-level token rewrite, and from
`src/lib/reading-history.ts` the bounded reading-history list.

JavaScript string-keyed objects are modelled as association lists where an
assignment prepends a binding and lookup reads the most recent binding for a
key (assignment shadows older bindings, which is observationally the JS
object semantics).  `String.toLowerCase` is modelled character-wise with
`Char.toLower` (the corpus is ASCII).  File-system input is passed in as the
ordered list of scanned documents, exactly the data `getAllMarkdownFiles`
hands to the builder.
-/

namespace ObsidianNext

/-- The fields of `NoteData` (src/lib/markdown.ts) consumed by the alias
index builder; `category`, `description`, `tags` and `date` are never read
by it and are omitted. -/
structure NoteData where
  slug : String
  path : String
  title : String
  deriving DecidableEq, Repr

/-- A JS string-keyed object used as a map. -/
abbrev StrMap := List (String × String)

/-- JS object assignment `obj[k] = v`: the new binding shadows old ones. -/
def objSet (m : StrMap) (k v : String) : StrMap := (k, v) :: m

/-- JS object lookup `obj[k]`: `none` models `undefined`. -/
def objGet (m : StrMap) (k : String) : Option String :=
  (m.find? (fun p => p.1 == k)).map (fun p => p.2)

/-- Model of `String.prototype.toLowerCase` (ASCII). -/
def toLowerCase (s : String) : String := String.mk (s.data.map Char.toLower)

/-- Model of JS `String.prototype.replace` with a plain-string pattern:
only the first occurrence is replaced.  (The source only ever passes the
nonempty patterns `".md"` and `"/"`.) -/
def replaceFirstL (pat repl : List Char) : List Char → List Char
  | [] => []
  | c :: rest =>
    if (c :: rest).take pat.length = pat then repl ++ (c :: rest).drop pat.length
    else c :: replaceFirstL pat repl rest

/-- String wrapper for `replaceFirstL`. -/
def replaceFirst (s pat repl : String) : String :=
  String.mk (replaceFirstL pat.data repl.data s.data)

/-- Model of `path.split('/').pop()`: the final path segment. -/
def lastSegment (s : String) : String :=
  String.mk (((s.data.splitOn '/').getLast?).getD [])

/-- The body of the `files.forEach` loop of `getTitleToSlugMap`
(src/lib/markdown.ts lines 108-122): register title, slug, extension-less
path and extension-less filename, each lower-cased except the slug, the
filename skipped when empty (JS falsiness of `''`). -/
def registerFile (titleToSlug : StrMap) (file : NoteData) : StrMap :=
  let m1 := objSet titleToSlug (toLowerCase file.title) file.slug
  let m2 := objSet m1 file.slug file.slug
  let originalPath := replaceFirst file.path ".md" ""
  let m3 := objSet m2 (toLowerCase originalPath) file.slug
  let filename := replaceFirst (lastSegment file.path) ".md" ""
  if filename ≠ "" then objSet m3 (toLowerCase filename) file.slug else m3

/-- `getTitleToSlugMap` (src/lib/markdown.ts lines 104-125), as a function
of the ordered document list supplied by the corpus scan. -/
def getTitleToSlugMap (files : List NoteData) : StrMap :=
  files.foldl registerFile []

/-- The set of alias keys one document registers, written out declaratively
for the index-characterisation theorems. -/
def aliasKeys (file : NoteData) : List String :=
  [toLowerCase file.title,
   file.slug,
   toLowerCase (replaceFirst file.path ".md" "")]
  ++ (if replaceFirst (lastSegment file.path) ".md" "" ≠ "" then
        [toLowerCase (replaceFirst (lastSegment file.path) ".md" "")]
      else [])

/-!
The mdast nodes the rewriter reads and creates.  A `link` node's single
`children` entry `[ (type := text, value := linkText) ]` is collapsed to its
`displayText`; `markedText` is the fallback text node carrying
`data.hName = span` and `data.hProperties.className`.
-/

/-- The node shapes of `remarkInternalLinks` (src/lib/markdown.ts). -/
inductive MNode where
  | text (value : String)
  | markedText (value : String) (className : String)
  | link (url : String) (displayText : String)
  deriving DecidableEq, Repr

/-- One attempt of the regex `/\[\[([^\]]+)\]\]/` at the start of the
input: two `[`, a nonempty run of non-`]` characters (the greedy `[^\]]+`,
which cannot backtrack usefully because a shorter run would put a non-`]`
character where `]]` is required), then `]]`.  Returns the captured inner
text and the remainder after the match. -/
def matchAt : List Char → Option (List Char × List Char)
  | '[' :: '[' :: rest =>
    match rest.takeWhile (fun c => c != ']'), rest.dropWhile (fun c => c != ']') with
    | [], _ => none
    | c :: cs, ']' :: ']' :: rest2 => some (c :: cs, rest2)
    | _ :: _, _ => none
  | _ => none

/-- Model of `linkRegex.test(text)`: the regex matches somewhere, i.e.
`matchAt` succeeds at some position (leftmost-first scan). -/
def testLink : List Char → Bool
  | [] => false
  | c :: rest => (matchAt (c :: rest)).isSome || testLink rest

/-- The per-token branch of the rewrite loop (src/lib/markdown.ts lines
158-182): look the lower-cased inner text up and emit a link node on a hit,
the red-styled fallback text node otherwise.  `some ""` falls to the
fallback branch because the JS guard `if (slug)` treats `''` as false. -/
def emitNode (titleToSlug : StrMap) (linkText : String) : MNode :=
  match objGet titleToSlug (toLowerCase linkText) with
  | some slug =>
    if slug ≠ "" then MNode.link ("/" ++ slug) linkText
    else MNode.markedText linkText "text-red-500 font-mono"
  | none => MNode.markedText linkText "text-red-500 font-mono"

/-- Text accumulated since the last match, flushed as a text node; the
source only pushes it when it is nonempty (`startIndex > lastIndex`,
`lastIndex < text.length`). -/
def flushText (pending : List Char) : List MNode :=
  if pending.isEmpty then [] else [MNode.text (String.mk pending)]

/-- The `while ((match = linkRegex.exec(text)))` loop of
`remarkInternalLinks` building `newNodes`: scan left to right, flush the
literal text before each match, emit one replacement node per match, flush
the trailing text.  `fuel` only bounds the recursion; every step consumes
at least one character, so the wrapper's `text.length` is never exhausted. -/
def rewriteLoop (titleToSlug : StrMap) : Nat → List Char → List Char → List MNode
  | _, pending, [] => flushText pending
  | 0, pending, rest => flushText (pending ++ rest)
  | fuel + 1, pending, c :: rest =>
    match matchAt (c :: rest) with
    | some (inner, rest2) =>
      flushText pending ++
        emitNode titleToSlug (String.mk inner) :: rewriteLoop titleToSlug fuel [] rest2
    | none => rewriteLoop titleToSlug fuel (pending ++ [c]) rest

/-- The visitor body of `remarkInternalLinks` on one text node:
`none` models the early return (`if (!linkRegex.test(text)) return;`, node
left untouched); `some newNodes` models replacing the node by `newNodes`
via `parent.children.splice(index, 1, ...newNodes)`. -/
def processTextNode (titleToSlug : StrMap) (s : String) : Option (List MNode) :=
  if testLink s.data then some (rewriteLoop titleToSlug s.data.length [] s.data) else none

/-- The effect of the visitor on one child: a text node is spliced into its
replacement sequence (or kept), any other node is untouched. -/
def spliceNode (titleToSlug : StrMap) (n : MNode) : List MNode :=
  match n with
  | MNode.text v =>
    match processTextNode titleToSlug v with
    | some newNodes => newNodes
    | none => [MNode.text v]
  | other => [other]

/-- The plugin applied to the children of one parent node: every text child
is replaced in place by its replacement sequence. -/
def rewriteChildren (titleToSlug : StrMap) (children : List MNode) : List MNode :=
  children.foldr (fun n acc => spliceNode titleToSlug n ++ acc) []

/-- The replacer callback of the string-level rewrite in `NotePage`
(src/app/[slug]/page.tsx lines 36-43): same regex capture, same
lower-cased lookup, markdown link syntax on a hit and the red span markup
on a miss. -/
def pageReplaceToken (titleToSlug : StrMap) (linkText : String) : String :=
  match objGet titleToSlug (toLowerCase linkText) with
  | some slug =>
    if slug ≠ "" then "[" ++ linkText ++ "](/" ++ slug ++ ")"
    else "<span class=\"text-red-500 font-mono\">" ++ linkText ++ "</span>"
  | none => "<span class=\"text-red-500 font-mono\">" ++ linkText ++ "</span>"

/-- An entry of the persisted reading history (src/lib/reading-history.ts). -/
structure ReadingHistoryItem where
  slug : String
  title : String
  visitedAt : Nat
  deriving DecidableEq, Repr

def MAX_HISTORY_SIZE : Nat := 5

/-- `addToHistory` (src/lib/reading-history.ts lines 10-23) as a function
from the stored list (read via `getHistory`) to the list written back;
`now` stands for `Date.now()`. -/
def addToHistory (slug title : String) (now : Nat)
    (history : List ReadingHistoryItem) : List ReadingHistoryItem :=
  let filteredHistory := history.filter (fun item => item.slug != slug)
  ({ slug := slug, title := title, visitedAt := now } :: filteredHistory).take MAX_HISTORY_SIZE

/-- Textual content of a replacement node with each match rendered as its
raw bracketed token `[[displayText]]`. -/
def renderTok : MNode → List Char
  | MNode.text v => v.data
  | MNode.markedText v _ => '[' :: '[' :: v.data ++ [']', ']']
  | MNode.link _ d => '[' :: '[' :: d.data ++ [']', ']']

/-- Textual content of a replacement node with each match rendered as its
raw display text (the inner text the node carries). -/
def renderPlain : MNode → List Char
  | MNode.text v => v.data
  | MNode.markedText v _ => v.data
  | MNode.link _ d => d.data

/-- Concatenated rendering of a replacement sequence. -/
def renderAll (render : MNode → List Char) (nodes : List MNode) : List Char :=
  nodes.foldr (fun n acc => render n ++ acc) []

/-- The resolved target of a replacement node, if it is a hyperlink. -/
def resolvedTarget : MNode → Option String
  | MNode.link url _ => some url
  | _ => none

/-- Whether a replacement node is the broken-link fallback. -/
def isBrokenMarker : MNode → Bool
  | MNode.markedText _ _ => true
  | _ => false

/-!  Concrete fixtures used by counterexamples and witnesses. -/

/-- An index holding only the trimmed lower-cased alias. -/
def c2Idx : StrMap := [("tokyo adventure", "tokyo-adventure")]

/-- A document with an upper-case slug and whitespace-padded title. -/
def c3File : NoteData := { slug := "A", path := "p.md", title := " T " }

/-- The index of the resolution-correctness test of the spec (section 8). -/
def c5Idx : StrMap :=
  [("tokyo adventure", "tokyo-adventure"), ("tokyo-adventure", "tokyo-adventure")]

/-- A document whose id is `guide`. -/
def docGuide : NoteData := { slug := "guide", path := "guide.md", title := "Guide One" }

/-- A later-scanned document whose title normalises to `guide`. -/
def docOther : NoteData := { slug := "other", path := "other.md", title := "guide" }

/-- A corpus of one document, for self-resolution witnesses. -/
def docSolo : NoteData := { slug := "solo", path := "solo.md", title := "Solo Note" }

/-- A stored history that already carries two entries with the same slug. -/
def c9DupHistory : List ReadingHistoryItem :=
  [{ slug := "a", title := "A", visitedAt := 1 },
   { slug := "b", title := "B", visitedAt := 2 },
   { slug := "b", title := "B again", visitedAt := 3 }]

/-- A one-document corpus for the renderer-agreement witness. -/
def c10File : NoteData := { slug := "d-slug", path := "d.md", title := "D Title" }

/-!  Helper lemmas. -/

theorem objGet_cons (a b k : String) (m : StrMap) :
    objGet ((a, b) :: m) k = if k = a then some b else objGet m k := by
  by_cases h : k = a
  · subst h; simp [objGet, List.find?_cons]
  · have hb : (a == k) = false := by simpa using Ne.symm h
    simp [objGet, List.find?_cons, hb, h]

theorem objGet_registerFile (m : StrMap) (f : NoteData) (k : String) :
    objGet (registerFile m f) k =
      if k ∈ aliasKeys f then some f.slug else objGet m k := by
  unfold registerFile aliasKeys objSet
  by_cases h4 : replaceFirst (lastSegment f.path) ".md" "" ≠ "" <;>
    by_cases h1 : k = toLowerCase f.title <;>
    by_cases h2 : k = f.slug <;>
    by_cases h3 : k = toLowerCase (replaceFirst f.path ".md" "") <;>
    by_cases h5 : k = toLowerCase (replaceFirst (lastSegment f.path) ".md" "") <;>
    simp_all [objGet_cons]

/-- Folding the per-file registration equals a backwards search for the most
recently scanned contributor of the key. -/
theorem objGet_foldl (files : List NoteData) (m : StrMap) (k : String) :
    objGet (files.foldl registerFile m) k =
      match files.reverse.find? (fun f => decide (k ∈ aliasKeys f)) with
      | some f => some f.slug
      | none => objGet m k := by
  induction files generalizing m with
  | nil => simp
  | cons f fs ih =>
    simp only [List.foldl_cons, List.reverse_cons, ih]
    rw [List.find?_append]
    cases hfs : fs.reverse.find? (fun f => decide (k ∈ aliasKeys f)) with
    | some g => simp
    | none =>
      simp only [Option.none_orElse]
      by_cases hk : k ∈ aliasKeys f <;> simp [List.find?, hk, objGet_registerFile]

/-- Lookup in the built index returns the slug of the last scanned document
whose alias keys contain the queried key. -/
theorem objGet_build (files : List NoteData) (k : String) :
    objGet (getTitleToSlugMap files) k =
      (files.reverse.find? (fun f => decide (k ∈ aliasKeys f))).map NoteData.slug := by
  rw [getTitleToSlugMap, objGet_foldl]
  cases files.reverse.find? (fun f => decide (k ∈ aliasKeys f)) <;> simp [objGet]

theorem matchAt_some {s inner rest2 : List Char}
    (h : matchAt s = some (inner, rest2)) :
    s = '[' :: '[' :: (inner ++ ']' :: ']' :: rest2) ∧ inner ≠ [] ∧
      ∀ c ∈ inner, c ≠ ']' := by
  unfold matchAt at h
  split at h
  · split at h
    · simp at h
    · rename_i c cs rest2' heq1 heq2
      rename_i q1 rest0 q2 q3
      obtain ⟨hinner, hrest⟩ : c :: cs = inner ∧ rest2' = rest2 := by
        constructor <;> [exact congrArg Prod.fst (Option.some.inj h);
          exact congrArg Prod.snd (Option.some.inj h)]
      subst hrest
      refine ⟨?_, by rw [← hinner]; simp, ?_⟩
      · have hsplit := List.takeWhile_append_dropWhile
          (p := fun c => c != ']') (l := rest0)
        rw [heq1, heq2, hinner] at hsplit
        rw [← hsplit]
      · intro c' hc'
        rw [← hinner] at hc'
        have := List.mem_takeWhile_imp (heq1 ▸ hc')
        simpa using this
    · simp at h
  · simp at h

theorem renderAll_cons (r : MNode → List Char) (n : MNode) (l : List MNode) :
    renderAll r (n :: l) = r n ++ renderAll r l := rfl

theorem renderAll_append (r : MNode → List Char) (l₁ l₂ : List MNode) :
    renderAll r (l₁ ++ l₂) = renderAll r l₁ ++ renderAll r l₂ := by
  induction l₁ with
  | nil => rfl
  | cons n l ih => simp [renderAll_cons, ih, List.append_assoc]

theorem renderAll_flushText (pending : List Char) :
    renderAll renderTok (flushText pending) = pending := by
  cases pending <;> simp [flushText, renderAll, renderTok]

theorem renderTok_emitNode (titleToSlug : StrMap) (linkText : String) :
    renderTok (emitNode titleToSlug linkText) =
      '[' :: '[' :: linkText.data ++ [']', ']'] := by
  unfold emitNode
  cases objGet titleToSlug (toLowerCase linkText) with
  | none => rfl
  | some slug => by_cases h : slug ≠ "" <;> simp [h, renderTok]

/-- Rendering every replacement node as its raw bracketed token restores
the scanned text: the loop keeps literal segments verbatim and each match
accounts for exactly its `[[...]]` occurrence. -/
theorem rewriteLoop_renderTok (titleToSlug : StrMap) :
    ∀ (fuel : Nat) (pending s : List Char), s.length ≤ fuel →
      renderAll renderTok (rewriteLoop titleToSlug fuel pending s) = pending ++ s := by
  intro fuel
  induction fuel with
  | zero =>
    intro pending s hs
    have hnil : s = [] := List.length_eq_zero.mp (Nat.le_zero.mp hs)
    subst hnil
    simp [rewriteLoop, renderAll_flushText]
  | succ n ih =>
    intro pending s hs
    cases s with
    | nil => simp [rewriteLoop, renderAll_flushText]
    | cons c rest =>
      cases hm : matchAt (c :: rest) with
      | none =>
        rw [show rewriteLoop titleToSlug (n + 1) pending (c :: rest) =
              rewriteLoop titleToSlug n (pending ++ [c]) rest by
            simp only [rewriteLoop]; rw [hm]]
        rw [ih (pending ++ [c]) rest (by simpa using Nat.le_of_succ_le_succ hs)]
        simp
      | some pr =>
        obtain ⟨inner, rest2⟩ := pr
        obtain ⟨heq, hne, -⟩ := matchAt_some hm
        have hlen : rest2.length ≤ n := by
          have hl := congrArg List.length heq
          simp [List.length_append] at hl
          simp at hs
          omega
        rw [show rewriteLoop titleToSlug (n + 1) pending (c :: rest) =
              flushText pending ++ emitNode titleToSlug (String.mk inner) ::
                rewriteLoop titleToSlug n [] rest2 by
            simp only [rewriteLoop]; rw [hm]]
        rw [renderAll_append, renderAll_cons, renderAll_flushText,
          renderTok_emitNode, ih [] rest2 hlen, heq]
        simp

/-- If the regex test succeeds, the text decomposes around a well-formed
`[[...]]` occurrence: a nonempty `]`-free inner span in double brackets. -/
theorem testLink_true_exists {s : List Char} (h : testLink s = true) :
    ∃ u v w, s = u ++ '[' :: '[' :: v ++ ']' :: ']' :: w ∧ v ≠ [] ∧
      ∀ c ∈ v, c ≠ ']' := by
  induction s with
  | nil => simp [testLink] at h
  | cons c rest ih =>
    rw [testLink, Bool.or_eq_true] at h
    cases h with
    | inl h =>
      obtain ⟨⟨inner, rest2⟩, hm⟩ := Option.isSome_iff_exists.mp h
      obtain ⟨heq, hne, hnc⟩ := matchAt_some hm
      exact ⟨[], inner, rest2, by simpa using heq, hne, hnc⟩
    | inr h =>
      obtain ⟨u, v, w, heq, hv, hnc⟩ := ih h
      exact ⟨c :: u, v, w, by simp [heq], hv, hnc⟩

theorem rewriteChildren_cons (titleToSlug : StrMap) (n : MNode) (l : List MNode) :
    rewriteChildren titleToSlug (n :: l) =
      spliceNode titleToSlug n ++ rewriteChildren titleToSlug l := rfl

theorem rewriteChildren_append (titleToSlug : StrMap) (l₁ l₂ : List MNode) :
    rewriteChildren titleToSlug (l₁ ++ l₂) =
      rewriteChildren titleToSlug l₁ ++ rewriteChildren titleToSlug l₂ := by
  induction l₁ with
  | nil => rfl
  | cons n l ih =>
    rw [List.cons_append, rewriteChildren_cons, ih, rewriteChildren_cons,
      List.append_assoc]

/-!  Claim theorems. -/

/-- C1, counterexample: concatenating the textual content of the
replacement sequence with each match rendered as its raw display text does
NOT reproduce the original node string — the rewriter drops the `[[` `]]`
brackets: `"x [[a]]"` is replaced by nodes whose display-text concatenation
is `"x a"`. -/
theorem c1_counterexample :
    processTextNode [] "x [[a]]" =
      some [MNode.text "x ", MNode.markedText "a" "text-red-500 font-mono"] ∧
    renderAll renderPlain
        [MNode.text "x ", MNode.markedText "a" "text-red-500 font-mono"] ≠
      ("x [[a]]" : String).data := by decide

/-- C1, amended: whenever a text node is rewritten (one or more matches),
the replacement sequence renders back to the original string exactly when
each resolved or unresolved match is rendered as its raw bracketed token
`[[displayText]]`; and in the parent's child list the text node is removed
and replaced in place by the sequence, leaving all siblings intact. -/
theorem c1_amended (titleToSlug : StrMap) (s : String) (newNodes : List MNode)
    (h : processTextNode titleToSlug s = some newNodes) :
    renderAll renderTok newNodes = s.data ∧
    ∀ pre post, rewriteChildren titleToSlug (pre ++ MNode.text s :: post) =
      rewriteChildren titleToSlug pre ++ newNodes ++
        rewriteChildren titleToSlug post := by
  have h1 : renderAll renderTok newNodes = s.data := by
    unfold processTextNode at h
    by_cases ht : testLink s.data
    · simp only [ht, if_true, Option.some.injEq] at h
      rw [← h]
      exact rewriteLoop_renderTok titleToSlug s.data.length [] s.data le_rfl
    · simp [ht] at h
  refine ⟨h1, fun pre post => ?_⟩
  rw [rewriteChildren_append, rewriteChildren_cons,
    show spliceNode titleToSlug (MNode.text s) = newNodes by simp [spliceNode, h],
    List.append_assoc]

/-- C1 witness: the amended round trip evaluated at the concrete node
`"A [[b]] c"` over the empty index. -/
theorem c1_amended_witness :
    renderAll renderTok
        [MNode.text "A ", MNode.markedText "b" "text-red-500 font-mono",
         MNode.text " c"] =
      ("A [[b]] c" : String).data :=
  (c1_amended [] "A [[b]] c"
    [MNode.text "A ", MNode.markedText "b" "text-red-500 font-mono",
     MNode.text " c"] (by decide)).1

/-- C2, counterexample: the code lower-cases but never trims the matched
inner text, so against the index mapping only `"tokyo adventure"`,
`[[ Tokyo Adventure ]]` (padded) falls back to the broken marker while
`[[tokyo adventure]]` resolves — the two outcomes differ. -/
theorem c2_counterexample :
    emitNode c2Idx " Tokyo Adventure " =
      MNode.markedText " Tokyo Adventure " "text-red-500 font-mono" ∧
    emitNode c2Idx "tokyo adventure" =
      MNode.link "/tokyo-adventure" "tokyo adventure" ∧
    resolvedTarget (emitNode c2Idx " Tokyo Adventure ") ≠
      resolvedTarget (emitNode c2Idx "tokyo adventure") := by decide

/-- C2, amended: resolution normalises by lower-casing only (no trimming),
so for every alias index the unpadded token `[[Tokyo Adventure]]` resolves
to the same target, and is a broken marker in the same cases, as
`[[tokyo adventure]]`; a padded token instead looks up its padded key. -/
theorem c2_amended (titleToSlug : StrMap) :
    resolvedTarget (emitNode titleToSlug "Tokyo Adventure") =
      resolvedTarget (emitNode titleToSlug "tokyo adventure") ∧
    isBrokenMarker (emitNode titleToSlug "Tokyo Adventure") =
      isBrokenMarker (emitNode titleToSlug "tokyo adventure") := by
  have hl : toLowerCase "Tokyo Adventure" = "tokyo adventure" := by decide
  have hl2 : toLowerCase "tokyo adventure" = "tokyo adventure" := by decide
  unfold emitNode
  rw [hl, hl2]
  cases objGet titleToSlug "tokyo adventure" with
  | none => exact ⟨rfl, rfl⟩
  | some slug =>
    by_cases h : slug ≠ "" <;> simp [h, resolvedTarget, isBrokenMarker]

/-- C3, counterexample: the builder does not trim and does not lower-case
the canonical id: for a document with title `" T "` and slug `"A"`, the
claimed normalized keys `"t"` and `"a"` are absent, while the untrimmed
lower-cased title `" t "` and the verbatim slug `"A"` are present. -/
theorem c3_counterexample :
    objGet (getTitleToSlugMap [c3File]) "t" = none ∧
    objGet (getTitleToSlugMap [c3File]) " t " = some "A" ∧
    objGet (getTitleToSlugMap [c3File]) "a" = none ∧
    objGet (getTitleToSlugMap [c3File]) "A" = some "A" := by decide

/-- C3, amended: per document in scan order the builder registers, each
overwriting any prior mapping for the same key: (a) the lower-cased
(untrimmed) title, (b) the canonical id verbatim, (c) the lower-cased
relative path with the first `.md` occurrence removed, and (d) the
lower-cased final path segment with the first `.md` occurrence removed,
skipped when empty — so a lookup returns the id of the last scanned
document registering the key. -/
theorem c3_amended (files : List NoteData) (k : String) :
    objGet (getTitleToSlugMap files) k =
      (files.reverse.find? (fun f => decide (k ∈ aliasKeys f))).map NoteData.slug :=
  objGet_build files k

/-- C4: when several documents register the same alias key, the built index
maps the key to the last-scanned contributor's id — no error is raised —
and rebuilding from the same ordered input yields the identical index (the
builder is a pure function of the scanned list). -/
theorem c4_last_write_wins (pre mid post : List NoteData) (f g : NoteData)
    (k : String) (hf : k ∈ aliasKeys f) (hg : k ∈ aliasKeys g)
    (hpost : ∀ d ∈ post, k ∉ aliasKeys d) :
    objGet (getTitleToSlugMap (pre ++ f :: mid ++ g :: post)) k = some g.slug ∧
    getTitleToSlugMap (pre ++ f :: mid ++ g :: post) =
      getTitleToSlugMap (pre ++ f :: mid ++ g :: post) := by
  refine ⟨?_, rfl⟩
  rw [objGet_build]
  have hrev : (pre ++ f :: mid ++ g :: post).reverse =
      post.reverse ++ g :: (mid.reverse ++ f :: pre.reverse) := by
    simp
  have hnone : post.reverse.find? (fun d => decide (k ∈ aliasKeys d)) = none := by
    rw [List.find?_eq_none]
    intro x hx
    simp [hpost x (List.mem_reverse.mp hx)]
  rw [hrev, List.find?_append, hnone]
  simp [List.find?_cons_of_pos, hg]

/-- C4 witness: the two colliding documents of the spec's collision test,
scanned `docGuide` then `docOther`: the key `guide` maps to the later id. -/
theorem c4_witness :
    objGet (getTitleToSlugMap ([] ++ docGuide :: [] ++ docOther :: [])) "guide" =
      some docOther.slug ∧
    getTitleToSlugMap ([] ++ docGuide :: [] ++ docOther :: []) =
      getTitleToSlugMap ([] ++ docGuide :: [] ++ docOther :: []) :=
  c4_last_write_wins [] [] [] docGuide docOther "guide" (by decide) (by decide)
    (by simp)

/-- C5: against the index of the spec's resolution test, the text node
`"See [[Tokyo Adventure]] guide"` is replaced by a literal `"See "` text
node, a hyperlink to `/tokyo-adventure` displaying `"Tokyo Adventure"`,
and a literal `" guide"` text node, in that order. -/
theorem c5_resolution :
    processTextNode c5Idx "See [[Tokyo Adventure]] guide" =
      some [MNode.text "See ",
            MNode.link "/tokyo-adventure" "Tokyo Adventure",
            MNode.text " guide"] := by decide

/-- C6: resolution is total and never raises — absence is handled by the
fallback result branch: whenever the lower-cased inner text is absent from
the alias index, the rewriter emits the plain-text node carrying the
matched display text tagged with the broken-link style, never a hyperlink
node. -/
theorem c6_fallback (titleToSlug : StrMap) (linkText : String)
    (h : objGet titleToSlug (toLowerCase linkText) = none) :
    emitNode titleToSlug linkText =
      MNode.markedText linkText "text-red-500 font-mono" := by
  unfold emitNode
  rw [h]

/-- C6 witness: the spec's fallback-marking test token `Nonexistent Page`
against an index lacking the alias. -/
theorem c6_witness :
    objGet [] (toLowerCase "Nonexistent Page") = none ∧
    emitNode [] "Nonexistent Page" =
      MNode.markedText "Nonexistent Page" "text-red-500 font-mono" :=
  ⟨by decide, c6_fallback [] "Nonexistent Page" (by decide)⟩

/-- C7, counterexample: a document's own id is registered, but a
later-scanned document whose title normalises to that id overwrites the
mapping, so looking the id up resolves to the other document — the
unconditional self-resolution invariant fails. -/
theorem c7_counterexample :
    docGuide.slug = "guide" ∧
    objGet (getTitleToSlugMap [docGuide, docOther]) docGuide.slug =
      some "other" ∧
    ("other" : String) ≠ docGuide.slug := by decide

/-- C7, amended: every document's id is present as a key of the built index
(so the lookup succeeds), and it resolves back to the same document
whenever no other scanned document registers an alias equal to that id. -/
theorem c7_amended (files : List NoteData) (f : NoteData) (hf : f ∈ files) :
    (objGet (getTitleToSlugMap files) f.slug).isSome = true ∧
    ((∀ g ∈ files, f.slug ∈ aliasKeys g → g.slug = f.slug) →
      objGet (getTitleToSlugMap files) f.slug = some f.slug) := by
  have hmem : f.slug ∈ aliasKeys f := by simp [aliasKeys]
  constructor
  · rw [objGet_build, Option.isSome_map']
    rw [List.find?_isSome]
    exact ⟨f, List.mem_reverse.mpr hf, by simpa using hmem⟩
  · intro huniq
    rw [objGet_build]
    cases hfind : files.reverse.find? (fun g => decide (f.slug ∈ aliasKeys g)) with
    | none =>
      rw [List.find?_eq_none] at hfind
      exact absurd (by simpa using hmem)
        (by simpa using hfind f (List.mem_reverse.mpr hf))
    | some g =>
      have hp := List.find?_some hfind
      have hgmem := List.mem_of_find?_eq_some hfind
      have hslug : g.slug = f.slug :=
        huniq g (List.mem_reverse.mp hgmem) (by simpa using hp)
      simp [hslug]

/-- C7 witness: a one-document corpus, where the id both is present and
self-resolves. -/
theorem c7_witness :
    (objGet (getTitleToSlugMap [docSolo]) docSolo.slug).isSome = true ∧
    objGet (getTitleToSlugMap [docSolo]) docSolo.slug = some docSolo.slug :=
  ⟨(c7_amended [docSolo] docSolo (by simp)).1,
   (c7_amended [docSolo] docSolo (by simp)).2 (by decide)⟩

/-- C8: a text node whose value contains no well-formed `[[...]]`
occurrence (no decomposition around a nonempty `]`-free double-bracketed
span — including malformed cases such as an unterminated `[[`) is left
completely untouched: the visitor early-returns and the sibling structure
of the parent is unchanged around it. -/
theorem c8_no_match (titleToSlug : StrMap) (s : String)
    (h : ¬ ∃ u v w, s.data = u ++ '[' :: '[' :: v ++ ']' :: ']' :: w ∧
      v ≠ [] ∧ ∀ c ∈ v, c ≠ ']') :
    processTextNode titleToSlug s = none ∧
    ∀ pre post, rewriteChildren titleToSlug (pre ++ MNode.text s :: post) =
      rewriteChildren titleToSlug pre ++ MNode.text s ::
        rewriteChildren titleToSlug post := by
  have ht : testLink s.data = false := by
    cases htl : testLink s.data
    · rfl
    · exact absurd (testLink_true_exists htl) h
  have hp : processTextNode titleToSlug s = none := by
    simp [processTextNode, ht]
  refine ⟨hp, fun pre post => ?_⟩
  rw [rewriteChildren_append, rewriteChildren_cons]
  simp [spliceNode, hp]

/-- C8 witness: the unterminated token `"[[x"` (too short to contain any
well-formed occurrence) is left untouched next to a sibling node. -/
theorem c8_witness :
    processTextNode [] "[[x" = none ∧
    rewriteChildren [] ([MNode.text "sib"] ++ MNode.text "[[x" :: []) =
      rewriteChildren [] [MNode.text "sib"] ++ MNode.text "[[x" ::
        rewriteChildren [] [] := by
  have h : ¬ ∃ u v w, ("[[x" : String).data =
      u ++ '[' :: '[' :: v ++ ']' :: ']' :: w ∧ v ≠ [] ∧ ∀ c ∈ v, c ≠ ']' := by
    rintro ⟨u, v, w, heq, -, -⟩
    have hd : ("[[x" : String).data = ['[', '[', 'x'] := rfl
    rw [hd] at heq
    have hlen := congrArg List.length heq
    simp [List.length_append] at hlen
    omega
  exact ⟨(c8_no_match [] "[[x" h).1,
    (c8_no_match [] "[[x" h).2 [MNode.text "sib"] []⟩

/-- C9, counterexample: `addToHistory` only filters out the slug being
added, so a stored list that already carries two entries with slug `"b"`
still carries both after adding `"c"` — the no-duplicate invariant does not
hold from an arbitrary stored list. -/
theorem c9_counterexample :
    addToHistory "c" "C" 9 c9DupHistory =
      [{ slug := "c", title := "C", visitedAt := 9 },
       { slug := "a", title := "A", visitedAt := 1 },
       { slug := "b", title := "B", visitedAt := 2 },
       { slug := "b", title := "B again", visitedAt := 3 }] ∧
    ¬ ((addToHistory "c" "C" 9 c9DupHistory).map ReadingHistoryItem.slug).Nodup := by
  decide

/-- C9, amended: starting from a stored list with pairwise-distinct slugs
(as every list previously written by `addToHistory` is), the written list
has at most 5 entries, starts with the just-added entry, keeps slugs
pairwise distinct with the added slug occurring exactly once, and is a
prefix of the new entry followed by the filtered old entries (entries
beyond the bound are dropped from the end). -/
theorem c9_amended (slug title : String) (now : Nat)
    (history : List ReadingHistoryItem)
    (h : (history.map ReadingHistoryItem.slug).Nodup) :
    (addToHistory slug title now history).length ≤ MAX_HISTORY_SIZE ∧
    (addToHistory slug title now history).head? =
      some { slug := slug, title := title, visitedAt := now } ∧
    ((addToHistory slug title now history).map ReadingHistoryItem.slug).Nodup ∧
    (addToHistory slug title now history).countP (fun i => i.slug == slug) = 1 ∧
    addToHistory slug title now history <+:
      ({ slug := slug, title := title, visitedAt := now } ::
        history.filter (fun item => item.slug != slug)) := by
  have hfly : ∀ a ∈ history.filter (fun item => item.slug != slug),
      a.slug ≠ slug := by
    intro a ha
    have := (List.mem_filter.mp ha).2
    simpa using this
  refine ⟨?_, ?_, ?_, ?_, ?_⟩
  · simp [addToHistory, List.length_take, MAX_HISTORY_SIZE]
  · simp [addToHistory, MAX_HISTORY_SIZE, List.take_succ_cons]
  · have hsub : ((addToHistory slug title now history).map
        ReadingHistoryItem.slug).Sublist
        ((({ slug := slug, title := title, visitedAt := now } ::
          history.filter (fun item => item.slug != slug)).map
            ReadingHistoryItem.slug)) :=
      List.Sublist.map _ (List.take_sublist _ _)
    refine List.Nodup.sublist hsub ?_
    rw [List.map_cons]
    refine List.nodup_cons.mpr ⟨?_, ?_⟩
    · intro hmem
      obtain ⟨a, ha, haeq⟩ := List.mem_map.mp hmem
      exact hfly a ha haeq
    · exact List.Nodup.sublist
        (List.Sublist.map _ (List.filter_sublist _)) h
  · rw [addToHistory]
    rw [show MAX_HISTORY_SIZE = 4 + 1 from rfl, List.take_succ_cons,
      List.countP_cons]
    have hzero : (List.take 4 (history.filter
        (fun item => item.slug != slug))).countP (fun i => i.slug == slug) = 0 := by
      rw [List.countP_eq_zero]
      intro a ha
      simpa using hfly a (List.mem_of_mem_take ha)
    simp [hzero]
  · exact List.take_prefix _ _

/-- C9 witness: the amended bound evaluated from the empty stored list. -/
theorem c9_witness :
    (([] : List ReadingHistoryItem).map ReadingHistoryItem.slug).Nodup ∧
    (addToHistory "a" "A" 7 []).length ≤ MAX_HISTORY_SIZE :=
  ⟨by decide, (c9_amended "a" "A" 7 [] (by decide)).1⟩

/-- C10: the string-level rewrite of the page renderer and the tree-level
plugin agree on classification: over the index built by
`getTitleToSlugMap`, both look up the lower-cased inner text, both emit a
link to the same slug on a (nonempty) hit, and both emit the red styled
span treatment of the inner text on a miss. -/
theorem c10_agreement (files : List NoteData) (linkText : String) :
    (∀ slug, objGet (getTitleToSlugMap files) (toLowerCase linkText) = some slug →
      slug ≠ "" →
      emitNode (getTitleToSlugMap files) linkText =
        MNode.link ("/" ++ slug) linkText ∧
      pageReplaceToken (getTitleToSlugMap files) linkText =
        "[" ++ linkText ++ "](/" ++ slug ++ ")") ∧
    (objGet (getTitleToSlugMap files) (toLowerCase linkText) = none →
      emitNode (getTitleToSlugMap files) linkText =
        MNode.markedText linkText "text-red-500 font-mono" ∧
      pageReplaceToken (getTitleToSlugMap files) linkText =
        "<span class=\"text-red-500 font-mono\">" ++ linkText ++ "</span>") := by
  constructor
  · intro slug hs hne
    unfold emitNode pageReplaceToken
    rw [hs]
    simp [hne]
  · intro hn
    unfold emitNode pageReplaceToken
    rw [hn]
    exact ⟨rfl, rfl⟩

/-- C10 witness: over a one-document corpus, a resolvable token becomes the
same slug in both rewrites and an unresolvable one becomes the styled span
in both. -/
theorem c10_witness :
    (emitNode (getTitleToSlugMap [c10File]) "D Title" =
        MNode.link ("/" ++ "d-slug") "D Title" ∧
      pageReplaceToken (getTitleToSlugMap [c10File]) "D Title" =
        "[" ++ "D Title" ++ "](/" ++ "d-slug" ++ ")") ∧
    (emitNode (getTitleToSlugMap [c10File]) "Missing" =
        MNode.markedText "Missing" "text-red-500 font-mono" ∧
      pageReplaceToken (getTitleToSlugMap [c10File]) "Missing" =
        "<span class=\"text-red-500 font-mono\">" ++ "Missing" ++ "</span>") :=
  ⟨(c10_agreement [c10File] "D Title").1 "d-slug" (by decide) (by decide),
   (c10_agreement [c10File] "Missing").2 (by decide)⟩

end ObsidianNext
